import Mathlib

/-!
Verification of the command-line flag parser in this repository.

The repository holds three implementations of `parse_arg_list`:
* `ArgsV1` — the virtual-dispatch variant in `args.cpp` (TokenIterator,
  AbstractFlag hierarchy, `StateMachine` over `{ParseError, ReadName,
  ReadValue, Done}`);
* `Args` — the tagged-variant rewrite in `args.cpp` (FlagSchema, `Flags`
  result store, `StateMachine` over `{FlagState, ValueState}`);
* `Part000` — the variant in `src/unnamed/part_000` (enum states, flag
  values extracted directly from the character stream).

Strings are modelled as Lean `String` / `List Char`; the C++ code only ever
inspects single-byte characters (`-`, digits, whitespace), so characters
stand in for bytes.  `std::unordered_map` is modelled as an association
list with `mapFind` / `mapSet`; iteration order never matters for the
lookup-level statements proved here.  `int32_t` is modelled as `Int`
with explicit range checks where the C++ library functions perform them.
-/

/-- Association-list lookup, modelling `std::unordered_map::find`. -/
def mapFind {α : Type} (k : String) : List (String × α) → Option α
  | [] => none
  | (k₁, v₁) :: rest => if k₁ = k then some v₁ else mapFind k rest

/-- Association-list insert-or-assign, modelling `std::unordered_map::operator[]`
followed by assignment. -/
def mapSet {α : Type} (k : String) (v : α) : List (String × α) → List (String × α)
  | [] => [(k, v)]
  | (k₁, v₁) :: rest => if k₁ = k then (k, v) :: rest else (k₁, v₁) :: mapSet k v rest

/-- One `stream >> token` extraction step on the remaining characters:
skip whitespace, then read a maximal run of non-whitespace characters.
Returns `none` when the stream is exhausted (extraction fails).
Models both `TokenIterator::next` and the `ss >> token` loop. -/
def nextToken (cs : List Char) : Option (String × List Char) :=
  let s := cs.dropWhile Char.isWhitespace
  let tok := s.takeWhile (fun c => !c.isWhitespace)
  if tok = [] then none else some (String.mk tok, s.dropWhile (fun c => !c.isWhitespace))

/-- One bounded step of iterated token extraction; the fuel only bounds the
number of loop iterations (each extraction consumes at least one character,
so `length + 1` fuel always suffices). -/
def tokenizeFuel : Nat → List Char → List String
  | 0, _ => []
  | fuel + 1, cs =>
    match nextToken cs with
    | none => []
    | some (t, r) => t :: tokenizeFuel fuel r

/-- Split the full argument string into its whitespace-separated tokens,
in order, by iterated extraction. -/
def tokenize (cs : List Char) : List String := tokenizeFuel (cs.length + 1) cs

/-- Numeric value of a run of decimal digit characters. -/
def digitsToNat (ds : List Char) : Nat := ds.foldl (fun a c => 10 * a + (c.toNat - 48)) 0

/-- The digit-run phase of `std::stoi`: after the sign, a non-empty run of
decimal digits is required and its value (with the sign applied) must lie in
`int32_t` range; the characters after the run are ignored. -/
def stoiDigits (sign : Int) (cs : List Char) : Option Int :=
  if cs.takeWhile Char.isDigit = [] then none
  else if sign * (digitsToNat (cs.takeWhile Char.isDigit) : Int) < -2147483648 ∨
      2147483647 < sign * (digitsToNat (cs.takeWhile Char.isDigit) : Int) then none
  else some (sign * (digitsToNat (cs.takeWhile Char.isDigit) : Int))

/-- Models `std::stoi` on a token, base 10: skip leading whitespace, an optional
sign, then `stoiDigits`.  `none` models the `std::invalid_argument`
(no digits) and `std::out_of_range` (outside `int32_t`) exceptions. -/
def stoi (s : String) : Option Int :=
  match s.data.dropWhile Char.isWhitespace with
  | '-' :: rest => stoiDigits (-1) rest
  | '+' :: rest => stoiDigits 1 rest
  | rest => stoiDigits 1 rest

namespace Args

/-- Models `enum FlagType` with `BOOL`, `INT32`, `STRING` from the tagged-variant rewrite. -/
inductive FlagType where
  | BOOL
  | INT32
  | STRING
deriving DecidableEq, Repr

export FlagType (BOOL INT32 STRING)

abbrev FlagName := String

abbrev FlagSchema := List (FlagName × FlagType)

/-- The `Flags` result store: one map per flag type. -/
structure Flags where
  bool_flags : List (FlagName × Bool)
  string_flags : List (FlagName × String)
  int32_flags : List (FlagName × Int)
deriving DecidableEq, Repr

/-- One schema entry processed by the `Flags(const FlagSchema&)` constructor
loop body. -/
def Flags.insertDefault (f : Flags) (name : FlagName) (t : FlagType) : Flags :=
  match t with
  | BOOL => { f with bool_flags := mapSet name false f.bool_flags }
  | INT32 => { f with int32_flags := mapSet name 0 f.int32_flags }
  | STRING => { f with string_flags := mapSet name "" f.string_flags }

def Flags.initAux (f : Flags) : FlagSchema → Flags
  | [] => f
  | (name, t) :: rest => Flags.initAux (f.insertDefault name t) rest

/-- The `Flags` constructor: every declared name receives its type's
zero value (`false`, `0`, `""`). -/
def Flags.init (schema : FlagSchema) : Flags :=
  Flags.initAux ⟨[], [], []⟩ schema

/-- Models `parse_flag_name`: a token is a flag name exactly when it is longer
than one character and starts with `-`; the name is the remainder. -/
def parse_flag_name (token : String) : Option FlagName :=
  if token.data.length ≤ 1 then none
  else if token.data.head? ≠ some '-' then none
  else some (String.mk (token.data.drop 1))

/-- Models `parse_value_as_string`: every token is a valid string value, verbatim. -/
def parse_value_as_string (token : String) : Option String :=
  some token

/-- Models `parse_value_as_int`: `std::stoi` wrapped into an option. -/
def parse_value_as_int (token : String) : Option Int :=
  stoi token

/-- The parse state, `std::variant<FlagState, ValueState>`. -/
inductive State where
  | FlagState
  | ValueState (flag_name : FlagName) (flag_type : FlagType)
deriving DecidableEq, Repr

/-- Models `std::visit(machine, state)` for one token: the two
`StateMachine::operator()` overloads. -/
def StateMachine.visit (schema : FlagSchema) (token : String) (state : State)
    (flags : Flags) : Option (State × Flags) :=
  match state with
  | .FlagState =>
    match parse_flag_name token with
    | none => none
    | some flag_name =>
      match mapFind flag_name schema with
      | none => none
      | some t =>
        if t = BOOL then
          some (.FlagState, { flags with bool_flags := mapSet flag_name true flags.bool_flags })
        else
          some (.ValueState flag_name t, flags)
  | .ValueState flag_name flag_type =>
    if flag_type = INT32 then
      match parse_value_as_int token with
      | none => none
      | some value =>
        some (.FlagState, { flags with int32_flags := mapSet flag_name value flags.int32_flags })
    else
      match parse_value_as_string token with
      | none => none
      | some value =>
        some (.FlagState, { flags with string_flags := mapSet flag_name value flags.string_flags })

/-- The `while (ss >> token)` driving loop of the tagged-variant
`parse_arg_list`, over the pre-extracted token sequence. -/
def runTokens (schema : FlagSchema) : List String → State → Flags → Option (State × Flags)
  | [], state, flags => some (state, flags)
  | token :: rest, state, flags =>
    match StateMachine.visit schema token state flags with
    | none => none
    | some (s, f) => runTokens schema rest s f

/-- The tagged-variant `parse_arg_list`: run the machine over all tokens;
ending in `ValueState` (a value still owed) is failure, otherwise the
populated store is returned. -/
def parse_arg_list (schema : FlagSchema) (arg_list : String) : Option Flags :=
  match runTokens schema (tokenize arg_list.data) .FlagState (Flags.init schema) with
  | none => none
  | some (.ValueState _ _, _) => none
  | some (.FlagState, flags) => some flags

end Args

namespace Args

def demoSchema : FlagSchema := [("l", BOOL), ("p", INT32), ("d", STRING)]

/-- The lookup a caller performs on a parse result (`flags->bool_flags[name]`
after a successful parse). -/
def resultBool (o : Option Flags) (name : FlagName) : Option Bool :=
  o.bind fun f => mapFind name f.bool_flags

def resultInt (o : Option Flags) (name : FlagName) : Option Int :=
  o.bind fun f => mapFind name f.int32_flags

def resultString (o : Option Flags) (name : FlagName) : Option String :=
  o.bind fun f => mapFind name f.string_flags

end Args

namespace ArgsV1

open Args (FlagType BOOL INT32 STRING Flags)

/-- The registry of the virtual-dispatch variant maps each flag name to a
heap-allocated `AbstractFlag` object; what matters semantically is which
concrete subclass (`BoolFlag` / `Int32Flag` / `StringFlag`) the object has,
so an entry is modelled by that tag.  The objects' current values are
gathered in a `Flags` record keyed by name (each object starts at its
type's default). -/
abbrev FlagRegistry := List (String × FlagType)

/-- Models `BoolFlag::setValue`: consume no token, set the value to `true`. -/
def BoolFlag.setValue (flags : Flags) (name : String) : Flags :=
  { flags with bool_flags := mapSet name true flags.bool_flags }

/-- The store write of `Int32Flag::setValue` once a token was pulled and
`std::stoi` succeeded. -/
def Int32Flag.setValue (flags : Flags) (name : String) (value : Int) : Flags :=
  { flags with int32_flags := mapSet name value flags.int32_flags }

/-- The store write of `StringFlag::setValue` once a token was pulled. -/
def StringFlag.setValue (flags : Flags) (name : String) (value : String) : Flags :=
  { flags with string_flags := mapSet name value flags.string_flags }

/-- The parse state, `std::variant<ParseError, ReadName, ReadValue, Done>`, of the
virtual-dispatch variant. -/
inductive State where
  | ParseError
  | ReadName
  | ReadValue (flag_name : String)
  | Done
deriving DecidableEq, Repr

/-- Models `std::visit(machine, state)`: the four `StateMachine::operator()`
overloads.  The `TokenIterator` is the remaining token sequence, threaded
through explicitly; `flag->setValue(it_)` is dispatched on the subclass of
the object found in the registry, with the token pulling done inside
`Int32Flag::setValue` / `StringFlag::setValue` inlined per subclass. -/
def StateMachine.visit (registry : FlagRegistry) (state : State)
    (ts : List String) (flags : Flags) : State × List String × Flags :=
  match state with
  | .ReadName =>
    match ts with
    | [] => (.Done, ts, flags)
    | token :: rest =>
      if token.data.length ≤ 1 then (.ParseError, rest, flags)
      else if token.data.head? ≠ some '-' then (.ParseError, rest, flags)
      else (.ReadValue (String.mk (token.data.drop 1)), rest, flags)
  | .ReadValue flag_name =>
    match mapFind flag_name registry with
    | none => (.ParseError, ts, flags)
    | some BOOL => (.ReadName, ts, BoolFlag.setValue flags flag_name)
    | some INT32 =>
      match ts with
      | [] => (.ParseError, ts, flags)
      | token :: rest =>
        match stoi token with
        | none => (.ParseError, rest, flags)
        | some value => (.ReadName, rest, Int32Flag.setValue flags flag_name value)
    | some STRING =>
      match ts with
      | [] => (.ParseError, ts, flags)
      | token :: rest => (.ReadName, rest, StringFlag.setValue flags flag_name token)
  | .ParseError => (.ParseError, ts, flags)
  | .Done => (.Done, ts, flags)

/-- The `while` loop of the virtual-dispatch `parse_arg_list`: apply the
machine until the state is `Done` or `ParseError`, then report the verdict
together with the flag objects' final values.  The fuel only bounds the
number of loop iterations (each `ReadName`/`ReadValue` pair consumes at
least one token, so `2 * length + 2` always reaches a terminal state);
`none` marks fuel exhaustion, never a verdict of the program. -/
def runFuel (registry : FlagRegistry) :
    Nat → State → List String → Flags → Option (Bool × Flags)
  | 0, _, _, _ => none
  | fuel + 1, state, ts, flags =>
    match state with
    | .Done => some (true, flags)
    | .ParseError => some (false, flags)
    | s =>
      match StateMachine.visit registry s ts flags with
      | (s', ts', f') => runFuel registry fuel s' ts' f'

/-- The virtual-dispatch `parse_arg_list`: drive the machine from `ReadName`
over the token stream. -/
def parse_arg_list (registry : FlagRegistry) (arg_list : String) :
    Option (Bool × Flags) :=
  let ts := tokenize arg_list.data
  runFuel registry (2 * ts.length + 2) .ReadName ts (Flags.init registry)

end ArgsV1

namespace Part000

open Args (FlagType BOOL INT32 STRING Flags)

/-- Registry of the `part_000` variant, modelled like `ArgsV1.FlagRegistry`:
each entry records the concrete `AbstractFlag` subclass of the object the
name maps to, and the objects' values live in a `Flags` record. -/
abbrev FlagRegistry := List (String × FlagType)

/-- Models `tokens >> value_` for an `int32_t`: skip whitespace, an optional sign,
then a maximal run of decimal digits, which must be non-empty and give a
value inside `int32_t` range (otherwise the stream fails).  Unlike
`std::stoi` on a pre-split token, the characters after the digits stay in
the stream. -/
def extractInt32 (cs : List Char) : Option (Int × List Char) :=
  let s := cs.dropWhile Char.isWhitespace
  let signed : Int × List Char :=
    match s with
    | '-' :: rest => (-1, rest)
    | '+' :: rest => (1, rest)
    | rest => (1, rest)
  let ds := signed.2.takeWhile Char.isDigit
  if ds = [] then none
  else
    let v : Int := signed.1 * (digitsToNat ds : Int)
    if v < -2147483648 ∨ 2147483647 < v then none
    else some (v, signed.2.dropWhile Char.isDigit)

/-- Models `enum State` with `DONE`, `PARSE_ERROR`, `READ_FLAG`. -/
inductive State where
  | DONE
  | PARSE_ERROR
  | READ_FLAG
deriving DecidableEq, Repr

/-- Models `read_flag`: pull a name token, validate it, look it up, and let the
flag object consume its value directly from the character stream
(`setValue(std::stringstream&)`, inlined per subclass). -/
def read_flag (registry : FlagRegistry) (cs : List Char) (flags : Flags) :
    State × List Char × Flags :=
  match nextToken cs with
  | none => (.DONE, cs, flags)
  | some (name_token, cs₁) =>
    if name_token.data.length ≤ 1 then (.PARSE_ERROR, cs₁, flags)
    else if name_token.data.head? ≠ some '-' then (.PARSE_ERROR, cs₁, flags)
    else
      let name := String.mk (name_token.data.drop 1)
      match mapFind name registry with
      | none => (.PARSE_ERROR, cs₁, flags)
      | some BOOL =>
        (.READ_FLAG, cs₁, { flags with bool_flags := mapSet name true flags.bool_flags })
      | some INT32 =>
        match extractInt32 cs₁ with
        | none => (.PARSE_ERROR, cs₁, flags)
        | some (value, cs₂) =>
          (.READ_FLAG, cs₂, { flags with int32_flags := mapSet name value flags.int32_flags })
      | some STRING =>
        match nextToken cs₁ with
        | none => (.PARSE_ERROR, cs₁, flags)
        | some (value, cs₂) =>
          (.READ_FLAG, cs₂, { flags with string_flags := mapSet name value flags.string_flags })

/-- The `while (state == READ_FLAG)` loop, bounded by fuel; each
`READ_FLAG` step consumes at least the name token, so `length + 1` fuel
always reaches a terminal state.  `none` means the fuel ran out (never the
program's verdict). -/
def runFuel (registry : FlagRegistry) : Nat → List Char → Flags → Option (Bool × Flags)
  | 0, _, _ => none
  | fuel + 1, cs, flags =>
    match read_flag registry cs flags with
    | (.DONE, _, f) => some (true, f)
    | (.PARSE_ERROR, _, f) => some (false, f)
    | (.READ_FLAG, cs', f) => runFuel registry fuel cs' f

/-- The `part_000` `parse_arg_list`: returns the success verdict (`none`
only if the fuel bound were ever hit). -/
def parse_arg_list (registry : FlagRegistry) (arg_list : String) : Option Bool :=
  (runFuel registry (arg_list.length + 1) arg_list.data (Flags.init registry)).map Prod.fst

end Part000

namespace Args

/-- A token that the whitespace tokenizer can produce: non-empty and free
of whitespace characters. -/
def GoodToken (t : String) : Prop := t ≠ "" ∧ ∀ c ∈ t.data, c.isWhitespace = false

instance (t : String) : Decidable (GoodToken t) := by
  unfold GoodToken; infer_instance

/-- Render a token sequence back into an argument string's characters,
separated by single spaces. -/
def renderTokens : List String → List Char
  | [] => []
  | [t] => t.data
  | t :: ts => t.data ++ ' ' :: renderTokens ts

/-- One flag occurrence of a well-formed argument string: a `Boolean` flag
token, or a value-bearing flag token followed by its value token. -/
inductive Arg where
  | boolArg (name : String)
  | intArg (name : String) (tok : String)
  | strArg (name : String) (tok : String)
deriving DecidableEq, Repr

/-- The tokens such an occurrence contributes to the argument string. -/
def Arg.tokens : Arg → List String
  | .boolArg n => ["-" ++ n]
  | .intArg n t => ["-" ++ n, t]
  | .strArg n t => ["-" ++ n, t]

def flattenArgs (args : List Arg) : List String := (args.map Arg.tokens).flatten

/-- Well-formedness of one occurrence against a schema: the flag name is
declared with the matching type and the value token parses for it
(`stoi` succeeds for `Int32`; any token is a `String` value). -/
def Arg.WF (schema : FlagSchema) : Arg → Prop
  | .boolArg n => mapFind n schema = some BOOL ∧ GoodToken n
  | .intArg n t => mapFind n schema = some INT32 ∧ GoodToken n ∧ GoodToken t ∧
      (stoi t).isSome = true
  | .strArg n t => mapFind n schema = some STRING ∧ GoodToken n ∧ GoodToken t

instance (schema : FlagSchema) (a : Arg) : Decidable (Arg.WF schema a) := by
  cases a <;> (unfold Arg.WF; infer_instance)

/-- A well-formed argument list: every occurrence is well-formed. -/
def WFArgs (schema : FlagSchema) (args : List Arg) : Prop :=
  ∀ a ∈ args, Arg.WF schema a

instance (schema : FlagSchema) (args : List Arg) : Decidable (WFArgs schema args) := by
  unfold WFArgs; infer_instance

/-- The store write one occurrence performs. -/
def Arg.apply (f : Flags) : Arg → Flags
  | .boolArg n => { f with bool_flags := mapSet n true f.bool_flags }
  | .intArg n t => { f with int32_flags := mapSet n ((stoi t).getD 0) f.int32_flags }
  | .strArg n t => { f with string_flags := mapSet n t f.string_flags }

def applyArgs (f : Flags) (args : List Arg) : Flags := args.foldl Arg.apply f

/-- The value written by the last `Boolean` occurrence of `n`, if any. -/
def lastBoolWrite (n : String) : List Arg → Option Bool
  | [] => none
  | a :: as =>
    match lastBoolWrite n as with
    | some v => some v
    | none =>
      match a with
      | .boolArg m => if m = n then some true else none
      | _ => none

/-- The value written by the last `Int32` occurrence of `n`, if any. -/
def lastIntWrite (n : String) : List Arg → Option Int
  | [] => none
  | a :: as =>
    match lastIntWrite n as with
    | some v => some v
    | none =>
      match a with
      | .intArg m t => if m = n then some ((stoi t).getD 0) else none
      | _ => none

/-- The value written by the last `String` occurrence of `n`, if any. -/
def lastStringWrite (n : String) : List Arg → Option String
  | [] => none
  | a :: as =>
    match lastStringWrite n as with
    | some v => some v
    | none =>
      match a with
      | .strArg m t => if m = n then some t else none
      | _ => none

/-- Every name declared in the schema has an entry of its type in the
store: what the spec calls a fully populated Result Store. -/
def Populated (schema : FlagSchema) (f : Flags) : Prop :=
  ∀ n : String,
    (mapFind n schema = some BOOL → (mapFind n f.bool_flags).isSome = true) ∧
    (mapFind n schema = some INT32 → (mapFind n f.int32_flags).isSome = true) ∧
    (mapFind n schema = some STRING → (mapFind n f.string_flags).isSome = true)

end Args

theorem length_dropWhile_le {α : Type} (p : α → Bool) :
    ∀ l : List α, (l.dropWhile p).length ≤ l.length := by
  intro l
  induction l with
  | nil => simp [List.dropWhile]
  | cons c cs ih =>
    by_cases h : p c
    · simp [List.dropWhile, h]
      omega
    · simp [List.dropWhile, h]

theorem nextToken_shrink {cs : List Char} {t : String} {r : List Char}
    (h : nextToken cs = some (t, r)) : r.length < cs.length := by
  have hslen := length_dropWhile_le Char.isWhitespace cs
  unfold nextToken at h
  cases hcase : cs.dropWhile Char.isWhitespace with
  | nil => rw [hcase] at h; simp at h
  | cons c s' =>
    rw [hcase] at h hslen
    by_cases hc : (!c.isWhitespace) = true
    · simp only [List.takeWhile_cons, List.dropWhile_cons, hc, if_true] at h
      simp at h
      have hr : r = s'.dropWhile (fun c => !c.isWhitespace) := h.2.symm
      have h2 := length_dropWhile_le (fun c => !c.isWhitespace) s'
      rw [hr]
      simp only [List.length_cons] at hslen
      omega
    · simp only [List.takeWhile_cons, List.dropWhile_cons, hc, if_false] at h
      simp [hc] at h

theorem tokenizeFuel_congr :
    ∀ f₁ f₂ : Nat, ∀ cs : List Char, cs.length < f₁ → cs.length < f₂ →
      tokenizeFuel f₁ cs = tokenizeFuel f₂ cs := by
  intro f₁
  induction f₁ with
  | zero => intro f₂ cs h1 _; omega
  | succ f ih =>
    intro f₂ cs h1 h2
    cases f₂ with
    | zero => omega
    | succ f₂' =>
      simp only [tokenizeFuel]
      cases hn : nextToken cs with
      | none => rfl
      | some tr =>
        obtain ⟨t, r⟩ := tr
        have hr := nextToken_shrink hn
        exact congrArg (t :: ·) (ih f₂' r (by omega) (by omega))

/-- The one-step unfolding of `tokenize`. -/
theorem tokenize_unfold (cs : List Char) :
    tokenize cs = match nextToken cs with
      | none => []
      | some (t, r) => t :: tokenize r := by
  show tokenizeFuel (cs.length + 1) cs = _
  simp only [tokenizeFuel]
  cases hn : nextToken cs with
  | none => rfl
  | some tr =>
    obtain ⟨t, r⟩ := tr
    have hr := nextToken_shrink hn
    exact congrArg (t :: ·) (tokenizeFuel_congr cs.length (r.length + 1) r (by omega) (by omega))

namespace Args

theorem scenario_happy :
    resultBool (parse_arg_list demoSchema "-l -p 1080 -d /hola/mundo") "l" = some true ∧
    resultInt (parse_arg_list demoSchema "-l -p 1080 -d /hola/mundo") "p" = some 1080 ∧
    resultString (parse_arg_list demoSchema "-l -p 1080 -d /hola/mundo") "d" =
      some "/hola/mundo" := by decide

theorem scenario_empty :
    resultBool (parse_arg_list demoSchema "") "l" = some false ∧
    resultInt (parse_arg_list demoSchema "") "p" = some 0 ∧
    resultString (parse_arg_list demoSchema "") "d" = some "" := by decide

theorem scenario_unknown : parse_arg_list demoSchema "-x" = none := by decide

theorem scenario_hyphen_values :
    resultInt (parse_arg_list demoSchema "-p -1080 -d -hola_mundo") "p" = some (-1080) ∧
    resultString (parse_arg_list demoSchema "-p -1080 -d -hola_mundo") "d" =
      some "-hola_mundo" := by decide

theorem scenario_early_exit : parse_arg_list demoSchema "-d" = none := by decide

theorem scenario_bad_int : parse_arg_list demoSchema "-p abc" = none := by decide

theorem scenario_duplicate :
    resultInt (parse_arg_list demoSchema "-p 1080 -p 88") "p" = some 88 := by decide

end Args

namespace ArgsV1

open Args (FlagType BOOL INT32 STRING Flags)

theorem v1_scenario_happy :
    parse_arg_list Args.demoSchema "-l -p 1080 -d /hola/mundo" =
      some (true, ⟨[("l", true)], [("d", "/hola/mundo")], [("p", 1080)]⟩) := by decide

theorem v1_scenario_unknown :
    (parse_arg_list Args.demoSchema "-x").map Prod.fst = some false := by decide

theorem v1_scenario_duplicate :
    (parse_arg_list Args.demoSchema "-p 1080 -p 88").map
        (fun r => (r.1, mapFind "p" r.2.int32_flags)) = some (true, some 88) := by decide

end ArgsV1

namespace Part000

open Args (FlagType BOOL INT32 STRING Flags)

theorem p0_scenario_happy :
    parse_arg_list Args.demoSchema "-l -p 1080 -d /hola/mundo" = some true := by decide

theorem p0_scenario_empty :
    parse_arg_list Args.demoSchema "" = some true := by decide

theorem p0_scenario_unknown :
    parse_arg_list Args.demoSchema "-x" = some false := by decide

theorem p0_scenario_hyphen_values :
    (runFuel Args.demoSchema 30 "-p -1080 -d -hola_mundo".data (Flags.init Args.demoSchema)).map
        (fun r => (r.1, mapFind "p" r.2.int32_flags, mapFind "d" r.2.string_flags)) =
      some (true, some (-1080), some "-hola_mundo") := by decide

theorem p0_scenario_early_exit :
    parse_arg_list Args.demoSchema "-d" = some false := by decide

theorem p0_scenario_bad_int :
    parse_arg_list Args.demoSchema "-p abc" = some false := by decide

theorem p0_divergent_input :
    parse_arg_list [("p", INT32)] "-p 12abc" = some false := by decide

end Part000

theorem mapFind_mapSet {α : Type} (l : List (String × α)) (k n : String) (v : α) :
    mapFind n (mapSet k v l) = if k = n then some v else mapFind n l := by
  induction l with
  | nil => by_cases h : k = n <;> simp [mapFind, mapSet, h]
  | cons hd t ih =>
    obtain ⟨k₁, v₁⟩ := hd
    by_cases hk : k₁ = k
    · subst hk
      by_cases hn : k₁ = n <;> simp [mapFind, mapSet, hn]
    · by_cases hn : k₁ = n
      · subst hn
        have hkn : k ≠ k₁ := fun he => hk he.symm
        simp [mapFind, mapSet, hk, hkn]
      · simp [mapFind, mapSet, hk, hn, ih]

theorem mapFind_isSome_mapSet {α : Type} {l : List (String × α)} {n : String}
    (k : String) (v : α) (h : (mapFind n l).isSome = true) :
    (mapFind n (mapSet k v l)).isSome = true := by
  rw [mapFind_mapSet]
  by_cases hk : k = n <;> simp [hk, h]

theorem mapFind_mem {α : Type} {l : List (String × α)} {n : String} {v : α}
    (h : mapFind n l = some v) : (n, v) ∈ l := by
  induction l with
  | nil => simp [mapFind] at h
  | cons hd t ih =>
    obtain ⟨k₁, v₁⟩ := hd
    by_cases hk : k₁ = n
    · subst hk
      simp [mapFind] at h
      simp [h]
    · simp [mapFind, hk] at h
      exact List.mem_cons_of_mem _ (ih h)

namespace Args

theorem initAux_bool (schema : FlagSchema) :
    ∀ f n, mapFind n f.bool_flags = some false →
      mapFind n (Flags.initAux f schema).bool_flags = some false := by
  induction schema with
  | nil => intro f n h; exact h
  | cons hd rest ih =>
    obtain ⟨m, t⟩ := hd
    intro f n h
    simp only [Flags.initAux]
    apply ih
    cases t with
    | BOOL =>
      simp only [Flags.insertDefault, mapFind_mapSet]
      by_cases hmn : m = n <;> simp [hmn, h]
    | INT32 => simpa [Flags.insertDefault] using h
    | STRING => simpa [Flags.insertDefault] using h

theorem initAux_int (schema : FlagSchema) :
    ∀ f n, mapFind n f.int32_flags = some 0 →
      mapFind n (Flags.initAux f schema).int32_flags = some 0 := by
  induction schema with
  | nil => intro f n h; exact h
  | cons hd rest ih =>
    obtain ⟨m, t⟩ := hd
    intro f n h
    simp only [Flags.initAux]
    apply ih
    cases t with
    | INT32 =>
      simp only [Flags.insertDefault, mapFind_mapSet]
      by_cases hmn : m = n <;> simp [hmn, h]
    | BOOL => simpa [Flags.insertDefault] using h
    | STRING => simpa [Flags.insertDefault] using h

theorem initAux_string (schema : FlagSchema) :
    ∀ f n, mapFind n f.string_flags = some "" →
      mapFind n (Flags.initAux f schema).string_flags = some "" := by
  induction schema with
  | nil => intro f n h; exact h
  | cons hd rest ih =>
    obtain ⟨m, t⟩ := hd
    intro f n h
    simp only [Flags.initAux]
    apply ih
    cases t with
    | STRING =>
      simp only [Flags.insertDefault, mapFind_mapSet]
      by_cases hmn : m = n <;> simp [hmn, h]
    | BOOL => simpa [Flags.insertDefault] using h
    | INT32 => simpa [Flags.insertDefault] using h

theorem initAux_mem_bool (schema : FlagSchema) :
    ∀ f n, (n, BOOL) ∈ schema →
      mapFind n (Flags.initAux f schema).bool_flags = some false := by
  induction schema with
  | nil => intro f n h; simp at h
  | cons hd rest ih =>
    intro f n h
    obtain ⟨m, t⟩ := hd
    rcases List.mem_cons.mp h with h1 | h2
    · obtain ⟨rfl, rfl⟩ : n = m ∧ BOOL = t := by
        simpa [Prod.ext_iff] using h1
      simp only [Flags.initAux]
      apply initAux_bool rest
      simp [Flags.insertDefault, mapFind_mapSet]
    · simp only [Flags.initAux]
      exact ih _ _ h2

theorem initAux_mem_int (schema : FlagSchema) :
    ∀ f n, (n, INT32) ∈ schema →
      mapFind n (Flags.initAux f schema).int32_flags = some 0 := by
  induction schema with
  | nil => intro f n h; simp at h
  | cons hd rest ih =>
    intro f n h
    obtain ⟨m, t⟩ := hd
    rcases List.mem_cons.mp h with h1 | h2
    · obtain ⟨rfl, rfl⟩ : n = m ∧ INT32 = t := by
        simpa [Prod.ext_iff] using h1
      simp only [Flags.initAux]
      apply initAux_int rest
      simp [Flags.insertDefault, mapFind_mapSet]
    · simp only [Flags.initAux]
      exact ih _ _ h2

theorem initAux_mem_string (schema : FlagSchema) :
    ∀ f n, (n, STRING) ∈ schema →
      mapFind n (Flags.initAux f schema).string_flags = some "" := by
  induction schema with
  | nil => intro f n h; simp at h
  | cons hd rest ih =>
    intro f n h
    obtain ⟨m, t⟩ := hd
    rcases List.mem_cons.mp h with h1 | h2
    · obtain ⟨rfl, rfl⟩ : n = m ∧ STRING = t := by
        simpa [Prod.ext_iff] using h1
      simp only [Flags.initAux]
      apply initAux_string rest
      simp [Flags.insertDefault, mapFind_mapSet]
    · simp only [Flags.initAux]
      exact ih _ _ h2

theorem init_bool {schema : FlagSchema} {n : String}
    (h : mapFind n schema = some BOOL) :
    mapFind n (Flags.init schema).bool_flags = some false :=
  initAux_mem_bool schema _ n (mapFind_mem h)

theorem init_int {schema : FlagSchema} {n : String}
    (h : mapFind n schema = some INT32) :
    mapFind n (Flags.init schema).int32_flags = some 0 :=
  initAux_mem_int schema _ n (mapFind_mem h)

theorem init_string {schema : FlagSchema} {n : String}
    (h : mapFind n schema = some STRING) :
    mapFind n (Flags.init schema).string_flags = some "" :=
  initAux_mem_string schema _ n (mapFind_mem h)

theorem init_populated (schema : FlagSchema) : Populated schema (Flags.init schema) := by
  intro n
  refine ⟨fun h => ?_, fun h => ?_, fun h => ?_⟩
  · simp [init_bool h]
  · simp [init_int h]
  · simp [init_string h]

end Args

namespace Args

theorem visit_populated {schema : FlagSchema} {tok : String} {st st' : State}
    {f f' : Flags} (hp : Populated schema f)
    (h : StateMachine.visit schema tok st f = some (st', f')) :
    Populated schema f' := by
  cases st with
  | FlagState =>
    simp only [StateMachine.visit] at h
    split at h
    · exact absurd h (by simp)
    · split at h
      · exact absurd h (by simp)
      · split at h
        · simp only [Option.some.injEq, Prod.mk.injEq] at h
          obtain ⟨rfl, rfl⟩ := h
          intro n
          obtain ⟨h1, h2, h3⟩ := hp n
          exact ⟨fun hh => mapFind_isSome_mapSet _ true (h1 hh), h2, h3⟩
        · simp only [Option.some.injEq, Prod.mk.injEq] at h
          obtain ⟨rfl, rfl⟩ := h
          exact hp
  | ValueState flag_name flag_type =>
    simp only [StateMachine.visit] at h
    split at h
    · split at h
      · exact absurd h (by simp)
      · simp only [Option.some.injEq, Prod.mk.injEq] at h
        obtain ⟨rfl, rfl⟩ := h
        intro n
        obtain ⟨h1, h2, h3⟩ := hp n
        exact ⟨h1, fun hh => mapFind_isSome_mapSet _ _ (h2 hh), h3⟩
    · split at h
      · exact absurd h (by simp)
      · simp only [Option.some.injEq, Prod.mk.injEq] at h
        obtain ⟨rfl, rfl⟩ := h
        intro n
        obtain ⟨h1, h2, h3⟩ := hp n
        exact ⟨h1, h2, fun hh => mapFind_isSome_mapSet _ _ (h3 hh)⟩

theorem runTokens_populated {schema : FlagSchema} :
    ∀ (ts : List String) (st : State) (f : Flags) (st' : State) (f' : Flags),
      Populated schema f → runTokens schema ts st f = some (st', f') →
      Populated schema f' := by
  intro ts
  induction ts with
  | nil =>
    intro st f st' f' hp h
    simp only [runTokens] at h
    obtain ⟨rfl, rfl⟩ : st = st' ∧ f = f' := by simpa [Prod.ext_iff] using h
    exact hp
  | cons t rest ih =>
    intro st f st' f' hp h
    simp only [runTokens] at h
    cases hv : StateMachine.visit schema t st f with
    | none => rw [hv] at h; simp at h
    | some sf =>
      obtain ⟨s₁, f₁⟩ := sf
      rw [hv] at h
      exact ih _ _ _ _ (visit_populated hp hv) h

theorem runTokens_append {schema : FlagSchema} :
    ∀ (ts₁ ts₂ : List String) (st : State) (f : Flags),
      runTokens schema (ts₁ ++ ts₂) st f =
        match runTokens schema ts₁ st f with
        | none => none
        | some (st', f') => runTokens schema ts₂ st' f' := by
  intro ts₁
  induction ts₁ with
  | nil => intro ts₂ st f; simp [runTokens]
  | cons t rest ih =>
    intro ts₂ st f
    simp only [List.cons_append, runTokens]
    cases hv : StateMachine.visit schema t st f with
    | none => simp
    | some sf =>
      obtain ⟨s₁, f₁⟩ := sf
      simp [ih]

theorem parse_flag_name_hyphen {n : String} (hn : n ≠ "") :
    parse_flag_name ("-" ++ n) = some n := by
  have hd : ("-" ++ n).data = '-' :: n.data := by rw [String.data_append]; rfl
  have hne : n.data ≠ [] := fun h => hn (String.ext h)
  unfold parse_flag_name
  rw [hd]
  have hlen : ¬('-' :: n.data).length ≤ 1 := by
    cases hcase : n.data with
    | nil => exact absurd hcase hne
    | cons c cs => simp [hcase]
  rw [if_neg hlen]
  have hhd : ¬(('-' :: n.data).head? ≠ some '-') := by simp
  rw [if_neg hhd]
  rfl

end Args

namespace Args

theorem visit_bool {schema : FlagSchema} {n : String} (f : Flags)
    (hl : mapFind n schema = some BOOL) (hn : n ≠ "") :
    StateMachine.visit schema ("-" ++ n) .FlagState f =
      some (.FlagState, { f with bool_flags := mapSet n true f.bool_flags }) := by
  simp [StateMachine.visit, parse_flag_name_hyphen hn, hl]

theorem visit_value_entry {schema : FlagSchema} {n : String} {t : FlagType} (f : Flags)
    (hl : mapFind n schema = some t) (hn : n ≠ "") (ht : t ≠ BOOL) :
    StateMachine.visit schema ("-" ++ n) .FlagState f =
      some (.ValueState n t, f) := by
  simp [StateMachine.visit, parse_flag_name_hyphen hn, hl, ht]

theorem runTokens_arg {schema : FlagSchema} {a : Arg} (f : Flags) (h : Arg.WF schema a) :
    runTokens schema a.tokens .FlagState f = some (.FlagState, Arg.apply f a) := by
  cases a with
  | boolArg n =>
    obtain ⟨hl, hn, -⟩ := h
    simp only [Arg.tokens, runTokens, visit_bool f hl hn, Arg.apply]
  | intArg n t =>
    obtain ⟨hl, ⟨hn, -⟩, -, hs⟩ := h
    obtain ⟨v, hv⟩ := Option.isSome_iff_exists.mp hs
    simp only [Arg.tokens, runTokens,
      visit_value_entry f hl hn (by intro hh; cases hh), Arg.apply]
    simp [StateMachine.visit, parse_value_as_int, hv]
  | strArg n t =>
    obtain ⟨hl, ⟨hn, -⟩, -⟩ := h
    simp only [Arg.tokens, runTokens,
      visit_value_entry f hl hn (by intro hh; cases hh), Arg.apply]
    simp [StateMachine.visit, parse_value_as_string]

theorem runTokens_wfArgs {schema : FlagSchema} :
    ∀ (args : List Arg) (f : Flags), WFArgs schema args →
      runTokens schema (flattenArgs args) .FlagState f =
        some (.FlagState, applyArgs f args) := by
  intro args
  induction args with
  | nil => intro f _; simp [flattenArgs, runTokens, applyArgs]
  | cons a rest ih =>
    intro f h
    have h1 : Arg.WF schema a := h a (List.mem_cons_self a rest)
    have h2 : WFArgs schema rest := fun x hx => h x (List.mem_cons_of_mem _ hx)
    have hfl : flattenArgs (a :: rest) = a.tokens ++ flattenArgs rest := by
      simp [flattenArgs]
    rw [hfl, runTokens_append, runTokens_arg f h1]
    simpa [applyArgs] using ih (Arg.apply f a) h2

end Args

namespace Args

theorem takeWhile_all_append {p : Char → Bool} :
    ∀ (l r : List Char), (∀ c ∈ l, p c = true) →
      (r = [] ∨ ∃ c r', r = c :: r' ∧ p c = false) →
      (l ++ r).takeWhile p = l ∧ (l ++ r).dropWhile p = r := by
  intro l
  induction l with
  | nil =>
    intro r _ hr
    rcases hr with rfl | ⟨c, r', rfl, hc⟩
    · simp
    · simp [List.takeWhile_cons, List.dropWhile_cons, hc]
  | cons a l' ih =>
    intro r hl hr
    have ha : p a = true := hl a (List.mem_cons_self _ _)
    have hl' : ∀ c ∈ l', p c = true := fun c hc => hl c (List.mem_cons_of_mem _ hc)
    obtain ⟨ht, hd⟩ := ih r hl' hr
    simp [List.takeWhile_cons, List.dropWhile_cons, ha, ht, hd]

theorem nextToken_token {t : String} {r : List Char} (ht : GoodToken t)
    (hr : r = [] ∨ ∃ r', r = ' ' :: r') :
    nextToken (t.data ++ r) = some (t, r) := by
  obtain ⟨hne, hws⟩ := ht
  have hdata : t.data ≠ [] := fun h => hne (String.ext h)
  have hallp : ∀ c ∈ t.data, (!c.isWhitespace) = true := by
    intro c hc; simp [hws c hc]
  have hbound : r = [] ∨ ∃ c r', r = c :: r' ∧ (!c.isWhitespace) = false := by
    rcases hr with rfl | ⟨r', rfl⟩
    · exact Or.inl rfl
    · exact Or.inr ⟨' ', r', rfl, by decide⟩
  obtain ⟨htake, hdrop⟩ := takeWhile_all_append t.data r hallp hbound
  have hd : (t.data ++ r).dropWhile Char.isWhitespace = t.data ++ r := by
    cases hcase : t.data with
    | nil => exact absurd hcase hdata
    | cons c cs =>
      have hcw : c.isWhitespace = false := hws c (hcase ▸ List.mem_cons_self c cs)
      simp [hcase, List.dropWhile_cons, hcw]
  simp only [nextToken, hd, htake, hdrop]
  simp [hdata]

theorem tokenize_sep (r : List Char) : tokenize (' ' :: r) = tokenize r := by
  have h : nextToken (' ' :: r) = nextToken r := by
    simp only [nextToken]
    have hsp : (' ' :: r).dropWhile Char.isWhitespace = r.dropWhile Char.isWhitespace := by
      simp [List.dropWhile_cons]
    rw [hsp]
  rw [tokenize_unfold (' ' :: r), tokenize_unfold r, h]

theorem tokenize_render :
    ∀ ts : List String, (∀ t ∈ ts, GoodToken t) → tokenize (renderTokens ts) = ts := by
  intro ts
  induction ts with
  | nil =>
    intro _
    rw [show renderTokens [] = [] from rfl, tokenize_unfold]
    rfl
  | cons t ts' ih =>
    intro h
    have ht : GoodToken t := h t (List.mem_cons_self _ _)
    have hts' : ∀ x ∈ ts', GoodToken x := fun x hx => h x (List.mem_cons_of_mem _ hx)
    cases ts' with
    | nil =>
      have hn : nextToken (t.data ++ []) = some (t, []) := nextToken_token ht (Or.inl rfl)
      rw [show renderTokens [t] = t.data ++ [] from by simp [renderTokens]]
      rw [tokenize_unfold, hn]
      rfl
    | cons t₂ ts'' =>
      have hn := nextToken_token ht (Or.inr ⟨renderTokens (t₂ :: ts''), rfl⟩)
      rw [show renderTokens (t :: t₂ :: ts'') = t.data ++ ' ' :: renderTokens (t₂ :: ts'')
        from rfl]
      rw [tokenize_unfold, hn]
      show t :: tokenize (' ' :: renderTokens (t₂ :: ts'')) = t :: t₂ :: ts''
      rw [tokenize_sep, ih hts']

end Args

namespace Args

theorem applyArgs_bool (n : String) : ∀ (args : List Arg) (f : Flags),
    mapFind n (applyArgs f args).bool_flags =
      match lastBoolWrite n args with
      | some v => some v
      | none => mapFind n f.bool_flags := by
  intro args
  induction args with
  | nil => intro f; simp [applyArgs, lastBoolWrite]
  | cons a as ih =>
    intro f
    have h1 : applyArgs f (a :: as) = applyArgs (Arg.apply f a) as := by simp [applyArgs]
    rw [h1, ih]
    cases hlw : lastBoolWrite n as with
    | some v => simp [lastBoolWrite, hlw]
    | none =>
      simp only [lastBoolWrite, hlw]
      cases a with
      | intArg m t => simp [Arg.apply]
      | strArg m t => simp [Arg.apply]
      | boolArg m =>
        simp only [Arg.apply]
        rw [mapFind_mapSet]
        by_cases hm : m = n <;> simp [hm]

theorem applyArgs_int (n : String) : ∀ (args : List Arg) (f : Flags),
    mapFind n (applyArgs f args).int32_flags =
      match lastIntWrite n args with
      | some v => some v
      | none => mapFind n f.int32_flags := by
  intro args
  induction args with
  | nil => intro f; simp [applyArgs, lastIntWrite]
  | cons a as ih =>
    intro f
    have h1 : applyArgs f (a :: as) = applyArgs (Arg.apply f a) as := by simp [applyArgs]
    rw [h1, ih]
    cases hlw : lastIntWrite n as with
    | some v => simp [lastIntWrite, hlw]
    | none =>
      simp only [lastIntWrite, hlw]
      cases a with
      | boolArg m => simp [Arg.apply]
      | strArg m t => simp [Arg.apply]
      | intArg m t =>
        simp only [Arg.apply]
        rw [mapFind_mapSet]
        by_cases hm : m = n <;> simp [hm]

theorem applyArgs_string (n : String) : ∀ (args : List Arg) (f : Flags),
    mapFind n (applyArgs f args).string_flags =
      match lastStringWrite n args with
      | some v => some v
      | none => mapFind n f.string_flags := by
  intro args
  induction args with
  | nil => intro f; simp [applyArgs, lastStringWrite]
  | cons a as ih =>
    intro f
    have h1 : applyArgs f (a :: as) = applyArgs (Arg.apply f a) as := by simp [applyArgs]
    rw [h1, ih]
    cases hlw : lastStringWrite n as with
    | some v => simp [lastStringWrite, hlw]
    | none =>
      simp only [lastStringWrite, hlw]
      cases a with
      | boolArg m => simp [Arg.apply]
      | intArg m t => simp [Arg.apply]
      | strArg m t =>
        simp only [Arg.apply]
        rw [mapFind_mapSet]
        by_cases hm : m = n <;> simp [hm]

theorem parse_arg_list_wf {schema : FlagSchema} {args : List Arg} {s : String}
    (h : WFArgs schema args) (hs : tokenize s.data = flattenArgs args) :
    parse_arg_list schema s = some (applyArgs (Flags.init schema) args) := by
  unfold parse_arg_list
  rw [hs, runTokens_wfArgs args _ h]

end Args

namespace Args

theorem parse_flag_name_bad1 {t : String} (h : t.data.length ≤ 1) :
    parse_flag_name t = none := by
  unfold parse_flag_name
  rw [if_pos h]

theorem parse_flag_name_bad2 {t : String} (h1 : ¬t.data.length ≤ 1)
    (h2 : t.data.head? ≠ some '-') : parse_flag_name t = none := by
  unfold parse_flag_name
  rw [if_neg h1, if_pos h2]

theorem parse_flag_name_ok {t : String} (h1 : ¬t.data.length ≤ 1)
    (h2 : ¬t.data.head? ≠ some '-') :
    parse_flag_name t = some (String.mk (t.data.drop 1)) := by
  unfold parse_flag_name
  rw [if_neg h1, if_neg h2]

theorem v2_flag_none {schema : FlagSchema} {t : String} {rest : List String}
    {flags : Flags} (h : parse_flag_name t = none) :
    runTokens schema (t :: rest) .FlagState flags = none := by
  simp only [runTokens, StateMachine.visit, h]

theorem v2_flag_cons {schema : FlagSchema} {t : String} {rest : List String}
    {flags : Flags} {name : FlagName} (h : parse_flag_name t = some name) :
    runTokens schema (t :: rest) .FlagState flags =
      match mapFind name schema with
      | none => none
      | some BOOL =>
        runTokens schema rest .FlagState
          { flags with bool_flags := mapSet name true flags.bool_flags }
      | some INT32 => runTokens schema rest (.ValueState name INT32) flags
      | some STRING => runTokens schema rest (.ValueState name STRING) flags := by
  simp only [runTokens, StateMachine.visit, h]
  cases mapFind name schema with
  | none => rfl
  | some ty => cases ty <;> rfl

theorem v2_value_int_cons {schema : FlagSchema} {name : FlagName} {v : String}
    {rest : List String} {flags : Flags} :
    runTokens schema (v :: rest) (.ValueState name INT32) flags =
      match stoi v with
      | none => none
      | some x =>
        runTokens schema rest .FlagState
          { flags with int32_flags := mapSet name x flags.int32_flags } := by
  simp only [runTokens, StateMachine.visit, parse_value_as_int, if_true]
  cases stoi v <;> rfl

theorem v2_value_string_cons {schema : FlagSchema} {name : FlagName} {v : String}
    {rest : List String} {flags : Flags} :
    runTokens schema (v :: rest) (.ValueState name STRING) flags =
      runTokens schema rest .FlagState
        { flags with string_flags := mapSet name v flags.string_flags } := by
  simp only [runTokens, StateMachine.visit, parse_value_as_string]
  rfl

end Args

namespace ArgsV1

open Args (FlagType BOOL INT32 STRING Flags)

theorem runFuel_error (registry : FlagRegistry) (fuel : Nat) (ts : List String)
    (flags : Flags) :
    runFuel registry (fuel + 1) .ParseError ts flags = some (false, flags) := by
  simp only [runFuel]

theorem runFuel_nil (registry : FlagRegistry) (flags : Flags) (fuel : Nat)
    (h : 2 ≤ fuel) :
    runFuel registry fuel .ReadName [] flags = some (true, flags) := by
  obtain ⟨f₀, rfl⟩ : ∃ f₀, fuel = f₀ + 2 := ⟨fuel - 2, by omega⟩
  simp only [runFuel, StateMachine.visit]

theorem runFuel_readName_cons (registry : FlagRegistry) (fuel : Nat) (t : String)
    (rest : List String) (flags : Flags) :
    runFuel registry (fuel + 1) .ReadName (t :: rest) flags =
      if t.data.length ≤ 1 then runFuel registry fuel .ParseError rest flags
      else if t.data.head? ≠ some '-' then runFuel registry fuel .ParseError rest flags
      else runFuel registry fuel (.ReadValue (String.mk (t.data.drop 1))) rest flags := by
  simp only [runFuel, StateMachine.visit]
  by_cases h1 : t.data.length ≤ 1
  · rw [if_pos h1, if_pos h1]
  · rw [if_neg h1, if_neg h1]
    by_cases h2 : t.data.head? ≠ some '-'
    · rw [if_pos h2, if_pos h2]
    · rw [if_neg h2, if_neg h2]

theorem runFuel_readValue (registry : FlagRegistry) (fuel : Nat) (name : String)
    (ts : List String) (flags : Flags) :
    runFuel registry (fuel + 1) (.ReadValue name) ts flags =
      match mapFind name registry with
      | none => runFuel registry fuel .ParseError ts flags
      | some BOOL =>
        runFuel registry fuel .ReadName ts
          { flags with bool_flags := mapSet name true flags.bool_flags }
      | some INT32 =>
        match ts with
        | [] => runFuel registry fuel .ParseError [] flags
        | token :: rest =>
          match stoi token with
          | none => runFuel registry fuel .ParseError rest flags
          | some value =>
            runFuel registry fuel .ReadName rest
              { flags with int32_flags := mapSet name value flags.int32_flags }
      | some STRING =>
        match ts with
        | [] => runFuel registry fuel .ParseError [] flags
        | token :: rest =>
          runFuel registry fuel .ReadName rest
            { flags with string_flags := mapSet name token flags.string_flags } := by
  simp only [runFuel, StateMachine.visit]
  cases mapFind name registry with
  | none => rfl
  | some ty =>
    cases ty with
    | BOOL => rfl
    | INT32 =>
      cases ts with
      | nil => rfl
      | cons token rest =>
        simp only []
        cases stoi token <;> rfl
    | STRING => cases ts <;> rfl

end ArgsV1

namespace ArgsV1

open Args (FlagType BOOL INT32 STRING Flags)

theorem runFuel_sim (registry : FlagRegistry) :
    ∀ (n : Nat) (ts : List String), ts.length ≤ n →
    ∀ (flags : Flags) (fuel : Nat), 2 * ts.length + 2 ≤ fuel →
      ∃ b f₁, runFuel registry fuel .ReadName ts flags = some (b, f₁) ∧
        (match Args.runTokens registry ts .FlagState flags with
          | some (.FlagState, f) => b = true ∧ f₁ = f
          | some (.ValueState _ _, _) => b = false
          | none => b = false) := by
  intro n
  induction n with
  | zero =>
    intro ts hlen flags fuel hfuel
    have hts : ts = [] := List.length_eq_zero.mp (Nat.le_zero.mp hlen)
    subst hts
    exact ⟨true, flags, runFuel_nil registry flags fuel (by omega),
      by simp [Args.runTokens]⟩
  | succ n ih =>
    intro ts hlen flags fuel hfuel
    cases ts with
    | nil =>
      exact ⟨true, flags, runFuel_nil registry flags fuel (by omega),
        by simp [Args.runTokens]⟩
    | cons t rest =>
      simp only [List.length_cons] at hlen hfuel
      obtain ⟨f₀, rfl⟩ : ∃ f₀, fuel = f₀ + 4 := ⟨fuel - 4, by omega⟩
      by_cases hbad1 : t.data.length ≤ 1
      · refine ⟨false, flags, ?_, ?_⟩
        · rw [show f₀ + 4 = (f₀ + 3) + 1 from rfl, runFuel_readName_cons, if_pos hbad1,
            show f₀ + 3 = (f₀ + 2) + 1 from rfl, runFuel_error]
        · rw [Args.v2_flag_none (Args.parse_flag_name_bad1 hbad1)]
      · by_cases hbad2 : t.data.head? ≠ some '-'
        · refine ⟨false, flags, ?_, ?_⟩
          · rw [show f₀ + 4 = (f₀ + 3) + 1 from rfl, runFuel_readName_cons, if_neg hbad1,
              if_pos hbad2, show f₀ + 3 = (f₀ + 2) + 1 from rfl, runFuel_error]
          · rw [Args.v2_flag_none (Args.parse_flag_name_bad2 hbad1 hbad2)]
        · have hpfn := Args.parse_flag_name_ok hbad1 hbad2
          cases hmf : mapFind (String.mk (t.data.drop 1)) registry with
          | none =>
            refine ⟨false, flags, ?_, ?_⟩
            · rw [show f₀ + 4 = (f₀ + 3) + 1 from rfl, runFuel_readName_cons, if_neg hbad1,
                if_neg hbad2, show f₀ + 3 = (f₀ + 2) + 1 from rfl, runFuel_readValue]
              simp only [hmf]
              rw [show f₀ + 2 = (f₀ + 1) + 1 from rfl, runFuel_error]
            · rw [Args.v2_flag_cons hpfn]
              simp only [hmf]
          | some ty =>
            cases ty with
            | BOOL =>
              obtain ⟨b, f₁, hrun, hmatch⟩ := ih rest (by omega)
                { flags with bool_flags := mapSet (String.mk (t.data.drop 1)) true flags.bool_flags }
                (f₀ + 2) (by omega)
              refine ⟨b, f₁, ?_, ?_⟩
              · rw [show f₀ + 4 = (f₀ + 3) + 1 from rfl, runFuel_readName_cons, if_neg hbad1,
                  if_neg hbad2, show f₀ + 3 = (f₀ + 2) + 1 from rfl, runFuel_readValue]
                simp only [hmf]
                exact hrun
              · rw [Args.v2_flag_cons hpfn]
                simp only [hmf]
                exact hmatch
            | INT32 =>
              cases rest with
              | nil =>
                refine ⟨false, flags, ?_, ?_⟩
                · rw [show f₀ + 4 = (f₀ + 3) + 1 from rfl, runFuel_readName_cons,
                    if_neg hbad1, if_neg hbad2, show f₀ + 3 = (f₀ + 2) + 1 from rfl,
                    runFuel_readValue]
                  simp only [hmf]
                  rw [show f₀ + 2 = (f₀ + 1) + 1 from rfl, runFuel_error]
                · rw [Args.v2_flag_cons hpfn]
                  simp only [hmf]
                  simp [Args.runTokens]
              | cons v rest' =>
                simp only [List.length_cons] at hlen hfuel
                cases hstoi : stoi v with
                | none =>
                  refine ⟨false, flags, ?_, ?_⟩
                  · rw [show f₀ + 4 = (f₀ + 3) + 1 from rfl, runFuel_readName_cons,
                      if_neg hbad1, if_neg hbad2, show f₀ + 3 = (f₀ + 2) + 1 from rfl,
                      runFuel_readValue]
                    simp only [hmf]
                    simp only [hstoi]
                    rw [show f₀ + 2 = (f₀ + 1) + 1 from rfl, runFuel_error]
                  · rw [Args.v2_flag_cons hpfn]
                    simp only [hmf]
                    rw [Args.v2_value_int_cons]
                    simp only [hstoi]
                | some x =>
                  obtain ⟨b, f₁, hrun, hmatch⟩ := ih rest' (by omega)
                    { flags with int32_flags := mapSet (String.mk (t.data.drop 1)) x flags.int32_flags }
                    (f₀ + 2) (by omega)
                  refine ⟨b, f₁, ?_, ?_⟩
                  · rw [show f₀ + 4 = (f₀ + 3) + 1 from rfl, runFuel_readName_cons,
                      if_neg hbad1, if_neg hbad2, show f₀ + 3 = (f₀ + 2) + 1 from rfl,
                      runFuel_readValue]
                    simp only [hmf]
                    simp only [hstoi]
                    exact hrun
                  · rw [Args.v2_flag_cons hpfn]
                    simp only [hmf]
                    rw [Args.v2_value_int_cons]
                    simp only [hstoi]
                    exact hmatch
            | STRING =>
              cases rest with
              | nil =>
                refine ⟨false, flags, ?_, ?_⟩
                · rw [show f₀ + 4 = (f₀ + 3) + 1 from rfl, runFuel_readName_cons,
                    if_neg hbad1, if_neg hbad2, show f₀ + 3 = (f₀ + 2) + 1 from rfl,
                    runFuel_readValue]
                  simp only [hmf]
                  rw [show f₀ + 2 = (f₀ + 1) + 1 from rfl, runFuel_error]
                · rw [Args.v2_flag_cons hpfn]
                  simp only [hmf]
                  simp [Args.runTokens]
              | cons v rest' =>
                simp only [List.length_cons] at hlen hfuel
                obtain ⟨b, f₁, hrun, hmatch⟩ := ih rest' (by omega)
                  { flags with string_flags := mapSet (String.mk (t.data.drop 1)) v flags.string_flags }
                  (f₀ + 2) (by omega)
                refine ⟨b, f₁, ?_, ?_⟩
                · rw [show f₀ + 4 = (f₀ + 3) + 1 from rfl, runFuel_readName_cons,
                    if_neg hbad1, if_neg hbad2, show f₀ + 3 = (f₀ + 2) + 1 from rfl,
                    runFuel_readValue]
                  simp only [hmf]
                  exact hrun
                · rw [Args.v2_flag_cons hpfn]
                  simp only [hmf]
                  rw [Args.v2_value_string_cons]
                  exact hmatch

end ArgsV1

theorem isDigit_not_ws {c : Char} (h : c.isDigit = true) : c.isWhitespace = false := by
  simp [Char.isDigit, Char.le_def] at h
  obtain ⟨h1, h2⟩ := h
  simp [Char.isWhitespace]
  and_intros <;> (intro hc; subst hc; revert h1 h2; decide)

theorem isDigit_ne_minus {c : Char} (h : c.isDigit = true) : c ≠ '-' := by
  intro hc; subst hc; simp [Char.isDigit] at h

theorem isDigit_ne_plus {c : Char} (h : c.isDigit = true) : c ≠ '+' := by
  intro hc; subst hc; simp [Char.isDigit] at h

theorem stoiDigits_run (sign : Int) (ds r : List Char) (hds : ds ≠ [])
    (hdig : ∀ c ∈ ds, c.isDigit = true)
    (hr : r = [] ∨ ∃ c r', r = c :: r' ∧ c.isDigit = false)
    (hrange : ¬(sign * (digitsToNat ds : Int) < -2147483648 ∨
      2147483647 < sign * (digitsToNat ds : Int))) :
    stoiDigits sign (ds ++ r) = some (sign * (digitsToNat ds : Int)) := by
  have htake : (ds ++ r).takeWhile Char.isDigit = ds :=
    (Args.takeWhile_all_append ds r hdig hr).1
  unfold stoiDigits
  rw [htake, if_neg hds, if_neg hrange]

theorem stoi_signed_digits (signChars : List Char) (sign : Int) (ds r : List Char)
    (hsign : (signChars = [] ∧ sign = 1) ∨ (signChars = ['-'] ∧ sign = -1) ∨
      (signChars = ['+'] ∧ sign = 1))
    (hds : ds ≠ []) (hdig : ∀ c ∈ ds, c.isDigit = true)
    (hr : r = [] ∨ ∃ c r', r = c :: r' ∧ c.isDigit = false)
    (hrange : ¬(sign * (digitsToNat ds : Int) < -2147483648 ∨
      2147483647 < sign * (digitsToNat ds : Int))) :
    stoi (String.mk (signChars ++ ds ++ r)) = some (sign * (digitsToNat ds : Int)) := by
  cases hcase : ds with
  | nil => exact absurd hcase hds
  | cons c₀ ds' =>
    subst hcase
    have hc₀ : c₀.isDigit = true := hdig c₀ (List.mem_cons_self _ _)
    unfold stoi
    rcases hsign with ⟨rfl, rfl⟩ | ⟨rfl, rfl⟩ | ⟨rfl, rfl⟩
    · have hdw : ((String.mk (([] : List Char) ++ (c₀ :: ds') ++ r)).data).dropWhile
          Char.isWhitespace = c₀ :: (ds' ++ r) := by
        show (([] : List Char) ++ (c₀ :: ds') ++ r).dropWhile Char.isWhitespace =
          c₀ :: (ds' ++ r)
        rw [List.nil_append, List.cons_append, List.dropWhile_cons, isDigit_not_ws hc₀]
        simp
      rw [hdw]
      split
      · rename_i rest heq
        exact absurd (List.head_eq_of_cons_eq heq) (isDigit_ne_minus hc₀)
      · rename_i rest heq
        exact absurd (List.head_eq_of_cons_eq heq) (isDigit_ne_plus hc₀)
      · show stoiDigits 1 ((c₀ :: ds') ++ r) = some (1 * (digitsToNat (c₀ :: ds') : Int))
        exact stoiDigits_run 1 (c₀ :: ds') r (by simp) hdig hr hrange
    · have hdw : ((String.mk (['-'] ++ (c₀ :: ds') ++ r)).data).dropWhile
          Char.isWhitespace = '-' :: ((c₀ :: ds') ++ r) := by
        show (['-'] ++ (c₀ :: ds') ++ r).dropWhile Char.isWhitespace =
          '-' :: ((c₀ :: ds') ++ r)
        have hws : ('-' : Char).isWhitespace = false := by decide
        simp only [List.cons_append, List.nil_append]
        rw [List.dropWhile_cons, hws]
        simp
      rw [hdw]
      show stoiDigits (-1) ((c₀ :: ds') ++ r) = some ((-1) * (digitsToNat (c₀ :: ds') : Int))
      exact stoiDigits_run (-1) (c₀ :: ds') r (by simp) hdig hr hrange
    · have hdw : ((String.mk (['+'] ++ (c₀ :: ds') ++ r)).data).dropWhile
          Char.isWhitespace = '+' :: ((c₀ :: ds') ++ r) := by
        show (['+'] ++ (c₀ :: ds') ++ r).dropWhile Char.isWhitespace =
          '+' :: ((c₀ :: ds') ++ r)
        have hws : ('+' : Char).isWhitespace = false := by decide
        simp only [List.cons_append, List.nil_append]
        rw [List.dropWhile_cons, hws]
        simp
      rw [hdw]
      show stoiDigits 1 ((c₀ :: ds') ++ r) = some (1 * (digitsToNat (c₀ :: ds') : Int))
      exact stoiDigits_run 1 (c₀ :: ds') r (by simp) hdig hr hrange

namespace Args

/-- Claim C1: for every schema and every well-formed argument string in which
every flag token names a declared flag and every value token parses for the
flag's declared type, parse succeeds and the Result Store holds the literal
parsed values; if the same flag name appears more than once, the value of its
last occurrence is the one stored. -/
theorem claim_C1 (schema : FlagSchema) (args : List Arg) (s : String) (n : String)
    (h : WFArgs schema args) (hs : tokenize s.data = flattenArgs args) :
    parse_arg_list schema s = some (applyArgs (Flags.init schema) args) ∧
    (mapFind n schema = some BOOL →
      mapFind n (applyArgs (Flags.init schema) args).bool_flags =
        some ((lastBoolWrite n args).getD false)) ∧
    (mapFind n schema = some INT32 →
      mapFind n (applyArgs (Flags.init schema) args).int32_flags =
        some ((lastIntWrite n args).getD 0)) ∧
    (mapFind n schema = some STRING →
      mapFind n (applyArgs (Flags.init schema) args).string_flags =
        some ((lastStringWrite n args).getD "")) := by
  refine ⟨parse_arg_list_wf h hs, fun hn => ?_, fun hn => ?_, fun hn => ?_⟩
  · rw [applyArgs_bool]
    cases hlw : lastBoolWrite n args with
    | some v => simp
    | none => simp [init_bool hn]
  · rw [applyArgs_int]
    cases hlw : lastIntWrite n args with
    | some v => simp
    | none => simp [init_int hn]
  · rw [applyArgs_string]
    cases hlw : lastStringWrite n args with
    | some v => simp
    | none => simp [init_string hn]

theorem claim_C1_witness :
    parse_arg_list demoSchema "-l -p 1080 -d /hola/mundo -p 88" =
      some (applyArgs (Flags.init demoSchema)
        [.boolArg "l", .intArg "p" "1080", .strArg "d" "/hola/mundo", .intArg "p" "88"]) ∧
    mapFind "p" (applyArgs (Flags.init demoSchema)
        [.boolArg "l", .intArg "p" "1080", .strArg "d" "/hola/mundo", .intArg "p" "88"]).int32_flags =
      some ((lastIntWrite "p"
        [.boolArg "l", .intArg "p" "1080", .strArg "d" "/hola/mundo", .intArg "p" "88"]).getD 0) := by
  have h := claim_C1 demoSchema
    [.boolArg "l", .intArg "p" "1080", .strArg "d" "/hola/mundo", .intArg "p" "88"]
    "-l -p 1080 -d /hola/mundo -p 88" "p" (by decide) (by decide)
  exact ⟨h.1, h.2.2.1 (by decide)⟩

/-- Claim C2: for every schema and the empty argument string, parse succeeds,
and every flag name declared in the schema is present in the returned Result
Store with its type's zero value (false for Boolean, 0 for Int32, empty
string for String). -/
theorem claim_C2 (schema : FlagSchema) (n : String) :
    parse_arg_list schema "" = some (Flags.init schema) ∧
    (mapFind n schema = some BOOL → mapFind n (Flags.init schema).bool_flags = some false) ∧
    (mapFind n schema = some INT32 → mapFind n (Flags.init schema).int32_flags = some 0) ∧
    (mapFind n schema = some STRING → mapFind n (Flags.init schema).string_flags = some "") :=
  ⟨rfl, fun h => init_bool h, fun h => init_int h, fun h => init_string h⟩

theorem claim_C2_witness :
    parse_arg_list demoSchema "" = some (Flags.init demoSchema) ∧
    mapFind "l" (Flags.init demoSchema).bool_flags = some false ∧
    mapFind "p" (Flags.init demoSchema).int32_flags = some 0 ∧
    mapFind "d" (Flags.init demoSchema).string_flags = some "" :=
  ⟨(claim_C2 demoSchema "l").1, (claim_C2 demoSchema "l").2.1 (by decide),
    (claim_C2 demoSchema "p").2.2.1 (by decide), (claim_C2 demoSchema "d").2.2.2 (by decide)⟩

/-- Claim C3: for every schema and every argument string containing, at any
flag-name position, a token `-X` whose name X is not declared in the schema,
parse reports failure, regardless of how many flags were successfully
processed before that token. -/
theorem claim_C3 (schema : FlagSchema) (pre : List Arg) (x : String)
    (rest : List String) (s : String)
    (hpre : WFArgs schema pre) (hx : mapFind x schema = none)
    (hs : tokenize s.data = flattenArgs pre ++ ("-" ++ x) :: rest) :
    parse_arg_list schema s = none := by
  have hrun : runTokens schema (("-" ++ x) :: rest) .FlagState
      (applyArgs (Flags.init schema) pre) = none := by
    by_cases hxe : x = ""
    · subst hxe
      exact v2_flag_none (parse_flag_name_bad1 (by decide))
    · rw [v2_flag_cons (parse_flag_name_hyphen hxe)]
      simp only [hx]
  unfold parse_arg_list
  rw [hs, runTokens_append, runTokens_wfArgs pre _ hpre]
  simp only [hrun]

theorem claim_C3_witness :
    parse_arg_list demoSchema "-l -x foo" = none :=
  claim_C3 demoSchema [.boolArg "l"] "x" ["foo"] "-l -x foo"
    (by decide) (by decide) (by decide)

/-- Claim C4: end-of-stream asymmetry: if the token stream is exhausted while
the machine expects a value for a value-bearing (Int32 or String) flag, parse
reports failure; if the stream is exhausted while the machine expects a flag
name, parse reports success. -/
theorem claim_C4 (schema : FlagSchema) (pre : List Arg) (n : String) (t : FlagType)
    (s₁ s₂ : String)
    (hpre : WFArgs schema pre) (hn : mapFind n schema = some t)
    (hv : t = INT32 ∨ t = STRING) (hne : n ≠ "")
    (hs₁ : tokenize s₁.data = flattenArgs pre ++ ["-" ++ n])
    (hs₂ : tokenize s₂.data = flattenArgs pre) :
    parse_arg_list schema s₁ = none ∧
    parse_arg_list schema s₂ = some (applyArgs (Flags.init schema) pre) := by
  constructor
  · have ht : t ≠ BOOL := by rcases hv with rfl | rfl <;> decide
    have hval : runTokens schema ["-" ++ n] .FlagState (applyArgs (Flags.init schema) pre) =
        some (.ValueState n t, applyArgs (Flags.init schema) pre) := by
      simp only [runTokens, visit_value_entry _ hn hne ht]
    unfold parse_arg_list
    rw [hs₁, runTokens_append, runTokens_wfArgs pre _ hpre]
    simp only [hval]
  · exact parse_arg_list_wf hpre hs₂

theorem claim_C4_witness :
    parse_arg_list demoSchema "-d" = none ∧
    parse_arg_list demoSchema "" = some (applyArgs (Flags.init demoSchema) []) :=
  claim_C4 demoSchema [] "d" STRING "-d" "" (by decide) (by decide)
    (Or.inr rfl) (by decide) (by decide) (by decide)

/-- Claim C5: a value token that fails numeric parsing for an Int32 flag
causes overall parse failure, while the very same token supplied as a String
flag's value always succeeds and is stored verbatim, including tokens that
start with `-`. -/
theorem claim_C5 (schema : FlagSchema) (pre : List Arg) (n d tok : String)
    (rest : List String) (s₁ s₂ : String)
    (hpre : WFArgs schema pre)
    (hn : mapFind n schema = some INT32) (hnne : n ≠ "")
    (hd : mapFind d schema = some STRING) (hdne : d ≠ "")
    (hbad : stoi tok = none)
    (hs₁ : tokenize s₁.data = flattenArgs pre ++ ("-" ++ n) :: tok :: rest)
    (hs₂ : tokenize s₂.data = flattenArgs pre ++ [("-" ++ d), tok]) :
    parse_arg_list schema s₁ = none ∧
    ∃ f, parse_arg_list schema s₂ = some f ∧ mapFind d f.string_flags = some tok := by
  constructor
  · have h0 : runTokens schema (("-" ++ n) :: tok :: rest) .FlagState
        (applyArgs (Flags.init schema) pre) = none := by
      rw [v2_flag_cons (parse_flag_name_hyphen hnne)]
      simp only [hn]
      rw [v2_value_int_cons]
      simp only [hbad]
    unfold parse_arg_list
    rw [hs₁, runTokens_append, runTokens_wfArgs pre _ hpre]
    simp only [h0]
  · have h1 : runTokens schema (("-" ++ d) :: [tok]) .FlagState
        (applyArgs (Flags.init schema) pre) =
        some (.FlagState, { applyArgs (Flags.init schema) pre with
          string_flags := mapSet d tok (applyArgs (Flags.init schema) pre).string_flags }) := by
      rw [v2_flag_cons (parse_flag_name_hyphen hdne)]
      simp only [hd]
      rw [v2_value_string_cons]
      rfl
    refine ⟨{ applyArgs (Flags.init schema) pre with string_flags := mapSet d tok (applyArgs (Flags.init schema) pre).string_flags }, ?_, ?_⟩
    · unfold parse_arg_list
      rw [hs₂, runTokens_append, runTokens_wfArgs pre _ hpre]
      simp only [h1]
    · rw [mapFind_mapSet]
      simp

theorem claim_C5_witness :
    parse_arg_list demoSchema "-p -hola_mundo extra" = none :=
  (claim_C5 demoSchema [] "p" "d" "-hola_mundo" ["extra"]
    "-p -hola_mundo extra" "-d -hola_mundo"
    (by decide) (by decide) (by decide) (by decide) (by decide)
    (by decide) (by decide) (by decide)).1

/-- Claim C6: on any parse error, the whole parse aborts atomically: the
caller receives either a fully populated Result Store (success) or an
explicit failure signal, and never observes a half-populated Result Store
advertised as valid. -/
theorem claim_C6 (schema : FlagSchema) (arg_list : String) (f : Flags) (n : String)
    (h : parse_arg_list schema arg_list = some f) :
    (mapFind n schema = some BOOL → (mapFind n f.bool_flags).isSome = true) ∧
    (mapFind n schema = some INT32 → (mapFind n f.int32_flags).isSome = true) ∧
    (mapFind n schema = some STRING → (mapFind n f.string_flags).isSome = true) := by
  unfold parse_arg_list at h
  cases hrt : runTokens schema (tokenize arg_list.data) .FlagState (Flags.init schema) with
  | none => rw [hrt] at h; simp at h
  | some sf =>
    obtain ⟨st, f'⟩ := sf
    rw [hrt] at h
    cases st with
    | ValueState a b => simp at h
    | FlagState =>
      simp only [Option.some.injEq] at h
      subst h
      exact runTokens_populated _ _ _ _ _ (init_populated schema) hrt n

theorem claim_C6_witness :
    (mapFind "p" (⟨[("l", true)], [("d", "")], [("p", 0)]⟩ : Flags).int32_flags).isSome =
      true :=
  (claim_C6 demoSchema "-l" ⟨[("l", true)], [("d", "")], [("p", 0)]⟩ "p"
    (by decide)).2.1 (by decide)

/-- Claim C7: when a flag-name token resolves to a flag declared with type
Boolean, the parser immediately writes true into the Result Store for that
name, consumes no value token, and transitions back to expecting a flag
name, so the token immediately following a Boolean flag token is interpreted
as a flag-name token. -/
theorem claim_C7 (schema : FlagSchema) (tok b : String) (rest : List String)
    (f : Flags) (h : parse_flag_name tok = some b) (hb : mapFind b schema = some BOOL) :
    StateMachine.visit schema tok .FlagState f =
      some (.FlagState, { f with bool_flags := mapSet b true f.bool_flags }) ∧
    mapFind b (mapSet b true f.bool_flags) = some true ∧
    runTokens schema (tok :: rest) .FlagState f =
      runTokens schema rest .FlagState { f with bool_flags := mapSet b true f.bool_flags } := by
  refine ⟨?_, ?_, ?_⟩
  · simp [StateMachine.visit, h, hb]
  · rw [mapFind_mapSet]
    simp
  · rw [v2_flag_cons h]
    simp only [hb]

theorem claim_C7_witness :
    mapFind "l" (mapSet "l" true (Flags.init demoSchema).bool_flags) = some true :=
  (claim_C7 demoSchema "-l" "l" ["-x"] (Flags.init demoSchema)
    (by decide) (by decide)).2.1

/-- Claim C8: a token in flag-name position whose length is at most 1, or
whose first character is not `-`, causes overall parse failure; a flag name
is recognized only when the token starts with the hyphen and its total
length exceeds 1. -/
theorem claim_C8 (schema : FlagSchema) (pre : List Arg) (t : String)
    (rest : List String) (s : String)
    (hpre : WFArgs schema pre)
    (hbad : t.data.length ≤ 1 ∨ t.data.head? ≠ some '-')
    (hs : tokenize s.data = flattenArgs pre ++ t :: rest) :
    parse_arg_list schema s = none ∧
    (∀ u : String, (parse_flag_name u).isSome = true ↔
      1 < u.data.length ∧ u.data.head? = some '-') := by
  constructor
  · have hnone : parse_flag_name t = none := by
      rcases hbad with h | h
      · exact parse_flag_name_bad1 h
      · by_cases h1 : t.data.length ≤ 1
        · exact parse_flag_name_bad1 h1
        · exact parse_flag_name_bad2 h1 h
    unfold parse_arg_list
    rw [hs, runTokens_append, runTokens_wfArgs pre _ hpre]
    simp only [v2_flag_none hnone]
  · intro u
    constructor
    · intro hsome
      by_cases h1 : u.data.length ≤ 1
      · rw [parse_flag_name_bad1 h1] at hsome
        simp at hsome
      · by_cases h2 : u.data.head? ≠ some '-'
        · rw [parse_flag_name_bad2 h1 h2] at hsome
          simp at hsome
        · exact ⟨by omega, not_not.mp h2⟩
    · intro ⟨hl, hh⟩
      rw [parse_flag_name_ok (by omega) (by simp [hh])]
      rfl

theorem claim_C8_witness :
    parse_arg_list demoSchema "-l x" = none :=
  (claim_C8 demoSchema [.boolArg "l"] "x" [] "-l x"
    (by decide) (Or.inr (by decide)) (by decide)).1

end Args

/-- Claim C9 as stated is false: on the same schema (`p` declared Int32) and
the same argument string `-p 12abc`, the tagged-variant `parse_arg_list` in
`args.cpp` succeeds (std::stoi reads the numeric prefix of the pre-split
token and ignores the rest) while the `part_000` variant fails (its stream
extraction leaves `abc` in the stream, which is then read as a malformed
flag token).  The virtual-dispatch variant agrees with the tagged variant. -/
theorem claim_C9_counterexample :
    (Args.parse_arg_list [("p", Args.INT32)] "-p 12abc").isSome = true ∧
    Part000.parse_arg_list [("p", Args.INT32)] "-p 12abc" = some false ∧
    (ArgsV1.parse_arg_list [("p", Args.INT32)] "-p 12abc").map Prod.fst = some true := by
  decide

/-- Claim C9 (amended): for every schema/registry declaring the same flag
names with the same types and every argument string, the two
implementations of parse_arg_list in args.cpp (the virtual-dispatch variant
and the tagged-variant rewrite) return the same success/failure verdict
and, on success, the same final value for every declared flag; the part_000
variant can disagree, because it extracts Int32 values directly from the
character stream rather than from the pre-split token. -/
theorem claim_C9 (registry : ArgsV1.FlagRegistry) (arg_list : String) :
    ∃ b f₁, ArgsV1.parse_arg_list registry arg_list = some (b, f₁) ∧
      (b = true ↔ (Args.parse_arg_list registry arg_list).isSome = true) ∧
      (∀ f, Args.parse_arg_list registry arg_list = some f → f₁ = f) := by
  obtain ⟨b, f₁, hrun, hmatch⟩ := ArgsV1.runFuel_sim registry (tokenize arg_list.data).length
    (tokenize arg_list.data) le_rfl (Args.Flags.init registry)
    (2 * (tokenize arg_list.data).length + 2) le_rfl
  refine ⟨b, f₁, ?_, ?_, ?_⟩
  · simp only [ArgsV1.parse_arg_list]
    exact hrun
  · cases hrt : Args.runTokens registry (tokenize arg_list.data) .FlagState
        (Args.Flags.init registry) with
    | none =>
      rw [hrt] at hmatch
      have hb : b = false := hmatch
      simp [Args.parse_arg_list, hrt, hb]
    | some sf =>
      obtain ⟨st, f₂⟩ := sf
      rw [hrt] at hmatch
      cases st with
      | FlagState =>
        obtain ⟨hb, -⟩ := hmatch
        simp [Args.parse_arg_list, hrt, hb]
      | ValueState a c =>
        have hb : b = false := hmatch
        simp [Args.parse_arg_list, hrt, hb]
  · intro f hf
    cases hrt : Args.runTokens registry (tokenize arg_list.data) .FlagState
        (Args.Flags.init registry) with
    | none =>
      rw [Args.parse_arg_list, hrt] at hf
      simp at hf
    | some sf =>
      obtain ⟨st, f₂⟩ := sf
      rw [hrt] at hmatch
      cases st with
      | FlagState =>
        obtain ⟨-, hfe⟩ := hmatch
        rw [Args.parse_arg_list, hrt] at hf
        simp only [Option.some.injEq] at hf
        rw [hfe, hf]
      | ValueState a c =>
        rw [Args.parse_arg_list, hrt] at hf
        simp at hf

namespace Args

/-- Claim C10: in both args.cpp implementations, an Int32 value token whose
leading characters (after an optional sign) form a valid decimal integer but
which carries trailing non-numeric characters (for example `12abc`, or the
signed `-12abc`) is accepted rather than rejected: the parse succeeds and the
stored value is the signed integer prefix, because std::stoi stops at the
first non-numeric character without raising an error. -/
theorem claim_C10 (schema : FlagSchema) (n : String) (signChars ds r : List Char)
    (sign : Int) (s : String)
    (hn : mapFind n schema = some INT32) (hnne : n ≠ "")
    (hsign : (signChars = [] ∧ sign = 1) ∨ (signChars = ['-'] ∧ sign = -1) ∨
      (signChars = ['+'] ∧ sign = 1))
    (hds : ds ≠ []) (hdig : ∀ c ∈ ds, c.isDigit = true)
    (hr : ∃ c r', r = c :: r' ∧ c.isDigit = false)
    (hrange : ¬(sign * (digitsToNat ds : Int) < -2147483648 ∨
      2147483647 < sign * (digitsToNat ds : Int)))
    (hs : tokenize s.data = ["-" ++ n, String.mk (signChars ++ ds ++ r)]) :
    parse_arg_list schema s =
      some { Flags.init schema with
        int32_flags := mapSet n (sign * (digitsToNat ds : Int))
          (Flags.init schema).int32_flags } ∧
    mapFind n (mapSet n (sign * (digitsToNat ds : Int)) (Flags.init schema).int32_flags) =
      some (sign * (digitsToNat ds : Int)) ∧
    ArgsV1.parse_arg_list schema s =
      some (true, { Flags.init schema with
        int32_flags := mapSet n (sign * (digitsToNat ds : Int))
          (Flags.init schema).int32_flags }) := by
  have hstoi : stoi (String.mk (signChars ++ ds ++ r)) =
      some (sign * (digitsToNat ds : Int)) :=
    stoi_signed_digits signChars sign ds r hsign hds hdig (Or.inr hr) hrange
  have hrun : runTokens schema (tokenize s.data) .FlagState (Flags.init schema) =
      some (.FlagState, { Flags.init schema with
        int32_flags := mapSet n (sign * (digitsToNat ds : Int))
          (Flags.init schema).int32_flags }) := by
    rw [hs, v2_flag_cons (parse_flag_name_hyphen hnne)]
    simp only [hn]
    rw [v2_value_int_cons]
    simp only [hstoi]
    rfl
  refine ⟨?_, ?_, ?_⟩
  · unfold parse_arg_list
    rw [hrun]
  · rw [mapFind_mapSet]
    simp
  · obtain ⟨b, f₁, hv1run, hmatch⟩ := ArgsV1.runFuel_sim schema (tokenize s.data).length
      (tokenize s.data) le_rfl (Flags.init schema)
      (2 * (tokenize s.data).length + 2) le_rfl
    rw [hrun] at hmatch
    obtain ⟨hb, hf⟩ := hmatch
    subst hb
    subst hf
    simp only [ArgsV1.parse_arg_list]
    exact hv1run

theorem claim_C10_witness :
    parse_arg_list [("p", INT32)] "-p 12abc" =
      some { Flags.init [("p", INT32)] with
        int32_flags := mapSet "p" ((1 : Int) * (digitsToNat "12".data : Int))
          (Flags.init [("p", INT32)]).int32_flags } ∧
    parse_arg_list [("p", INT32)] "-p -12abc" =
      some { Flags.init [("p", INT32)] with
        int32_flags := mapSet "p" ((-1 : Int) * (digitsToNat "12".data : Int))
          (Flags.init [("p", INT32)]).int32_flags } :=
  ⟨(claim_C10 [("p", INT32)] "p" [] "12".data "abc".data 1 "-p 12abc"
      (by decide) (by decide) (Or.inl ⟨rfl, rfl⟩) (by decide) (by decide)
      ⟨'a', "bc".data, rfl, by decide⟩ (by decide) (by decide)).1,
    (claim_C10 [("p", INT32)] "p" ['-'] "12".data "abc".data (-1) "-p -12abc"
      (by decide) (by decide) (Or.inr (Or.inl ⟨rfl, rfl⟩)) (by decide) (by decide)
      ⟨'a', "bc".data, rfl, by decide⟩ (by decide) (by decide)).1⟩

end Args


theorem claim_C9_witness :
    (ArgsV1.parse_arg_list Args.demoSchema "-l -p 1080").map Prod.snd =
      some (⟨[("l", true)], [("d", "")], [("p", 1080)]⟩ : Args.Flags) := by
  obtain ⟨b, f₁, h1, h2, h3⟩ := claim_C9 Args.demoSchema "-l -p 1080"
  have hf := h3 ⟨[("l", true)], [("d", "")], [("p", 1080)]⟩ (by decide)
  subst hf
  rw [h1]
  rfl
